import Mathlib

/-!
Shallow embedding of the Smart-Resume-Analysis repository
(`src/cli_critic.py` and `src/main.py`).

The core of the program is the rule-based suggestion generator
`fallback_generator` (duplicated verbatim as the nested `_fallback` of
`generate_improvement_json` in the web front end).  We embed it faithfully:

* Python `re` word-boundary (`\b`) semantics are modelled over ASCII:
  a word character is an ASCII alphanumeric or an underscore
  (Python's Unicode `\w` restricted to ASCII, which covers every keyword
  of the program's fixed taxonomy and every token its token class can
  produce).  Out-of-range indexing is modelled by the default character
  a space, which is neither a word character, a token-class character
  nor a digit.
* `str.lower` is `pyLower` (`Char.toLower` on every character, the ASCII
  case mapping).
* `json.dumps(..., separators=(",", ":"))` is implemented concretely for
  the record shape the generator produces (`jsonDumpsRecord` below),
  including Python's `ensure_ascii` escaping.
-/

/-- Model of Python `str.lower`: `Char.toLower` on every character. -/
def pyLower (s : String) : String :=
  String.mk (s.toList.map Char.toLower)

/-- An ASCII model of Python regex `\w`: alphanumeric or underscore. -/
def isWordChar (c : Char) : Bool :=
  c.isAlphanum || c == '_'

/-- Character of `cs` at index `i`; out of range gives the space character
(which is not a word character, token character or digit). -/
def charAt (cs : List Char) (i : Nat) : Char :=
  (cs.drop i).headD ' '

/-- Is the character at index `i` a word character (false out of range)? -/
def wordAt (cs : List Char) (i : Nat) : Bool :=
  isWordChar (charAt cs i)

/-- Is the character just before index `i` a word character
(false at the start of the text)? -/
def prevWordAt (cs : List Char) (i : Nat) : Bool :=
  match i with
  | 0 => false
  | j + 1 => wordAt cs j

/-- Python regex `\b` at position `i`: word-character-ness changes there. -/
def boundaryAt (cs : List Char) (i : Nat) : Bool :=
  prevWordAt cs i != wordAt cs i

/-- Predicate `litHere lit cs`: the literal `lit` occurs at the head of `cs`. -/
def litHere : List Char → List Char → Bool
  | [], _ => true
  | _ :: _, [] => false
  | p :: ps, c :: cs => p == c && litHere ps cs

/-- The literal `lit` occurs in `cs` starting at index `i`. -/
def occursAt (cs lit : List Char) (i : Nat) : Bool :=
  litHere lit (cs.drop i)

/-- Model of `re.search(r"\b" + re.escape(kw) + r"\b", text)` for a literal
keyword: some position carries the literal with a word boundary on both
sides. -/
def searchWB (text kw : String) : Bool :=
  let cs := text.toList
  let ks := kw.toList
  (List.range (cs.length + 1)).any fun i =>
    boundaryAt cs i && occursAt cs ks i && boundaryAt cs (i + ks.length)

/-- Model of `re.search` for a plain literal (no boundaries): substring
containment. -/
def substrSearch (cs : List Char) (lit : String) : Bool :=
  (List.range (cs.length + 1)).any fun i => occursAt cs lit.toList i

/-- The character class `[a-zA-Z0-9\+\-#]` of the token-extraction regex. -/
def tokenClass (c : Char) : Bool :=
  c.isAlphanum || c == '+' || c == '-' || c == '#'

/-- Length of the maximal run of token-class characters starting at `i`
(fuel-indexed; any fuel above the text length is exact). -/
def runLenAux (s : List Char) : Nat → Nat → Nat
  | _, 0 => 0
  | i, f + 1 => if tokenClass (charAt s i) then runLenAux s (i + 1) f + 1 else 0

/-- Maximal token-class run length starting at `i`. -/
def runLen (s : List Char) (i : Nat) : Nat :=
  runLenAux s i (s.length + 1)

/-- Backtracking of the greedy `[...]+` against the trailing `\b`:
the largest length `l` with `1 ≤ l ≤ n` and a word boundary at `i + l`,
if any. -/
def pickLen (s : List Char) (i : Nat) : Nat → Option Nat
  | 0 => none
  | n + 1 => if boundaryAt s (i + n + 1) then some (n + 1) else pickLen s i n

/-- The scan loop of `re.findall(r"\b[a-zA-Z0-9\+\-#]+\b", text)`:
try a match at each position left to right, emit the (start, length)
span of each non-overlapping match, resume after it. -/
def scanAux (s : List Char) : Nat → Nat → List (Nat × Nat)
  | _, 0 => []
  | i, fuel + 1 =>
    if s.length ≤ i then []
    else if boundaryAt s i && tokenClass (charAt s i) then
      match pickLen s i (runLen s i) with
      | some l => (i, l) :: scanAux s (i + l) fuel
      | none => scanAux s (i + 1) fuel
    else scanAux s (i + 1) fuel

/-- Model of `re.findall(r"\b[a-zA-Z0-9\+\-#]+\b", text)`: the list of
matched tokens, in text order. -/
def findallTokens (cs : List Char) : List String :=
  (scanAux cs 0 (cs.length + 1)).map fun p => String.mk ((cs.drop p.1).take p.2)

/-- The fixed skill taxonomy `tech_keywords` of `fallback_generator`. -/
def tech_keywords : List String :=
  ["python", "sql", "aws", "docker", "kubernetes", "react", "node", "tensorflow",
   "pandas", "spark", "java", "javascript", "cloud", "ci/cd", "etl", "linux", "git",
   "rest", "api", "mongodb", "postgresql", "mysql", "azure", "gcp", "jenkins", "kafka",
   "scala", "golang", "rust", "typescript", "vue", "angular", "django", "flask", "fastapi"]

/-- The stopword set of `fallback_generator` (a Python `set`, used only for
membership). -/
def stopwords : List String :=
  ["the", "and", "a", "to", "of", "in", "for", "with", "on", "as", "is", "be",
   "by", "or", "are", "at", "from", "that", "this", "it", "you", "we", "your",
   "our", "not", "can", "have", "been", "has", "was", "were", "do", "does",
   "did", "would", "could", "should", "may", "might", "must"]

/-- The `missing` list: taxonomy keywords word-boundary-present in the
lower-cased job description and absent from the lower-cased resume,
in taxonomy order (before the final `[:8]` truncation). -/
def missing_of (resume_text job_description : String) : List String :=
  tech_keywords.filter fun kw =>
    searchWB (pyLower job_description) kw && !(searchWB (pyLower resume_text) kw)

/-- The `present_tech` list: taxonomy keywords word-boundary-present in the
lower-cased resume, in taxonomy order. -/
def present_tech_of (resume_text : String) : List String :=
  tech_keywords.filter fun kw => searchWB (pyLower resume_text) kw

/-- The `skills_to_strengthen` local: two templated strings naming the first
present keyword, or the empty list. -/
def skills_to_strengthen_of (resume_text : String) : List String :=
  match present_tech_of resume_text with
  | [] => []
  | k :: _ =>
    ["Quantify proficiency for " ++ k ++ " (years, projects, outcomes)",
     "Add specific use-cases for " ++ k ++ " (e.g., built X, optimized Y)"]

/-- The `words` local: tokens of the lower-cased job description. -/
def words_of (job_description : String) : List String :=
  findallTokens (pyLower job_description).toList

/-- The tokens surviving the stopword / length / missing / present filters
(the loop body `continue` condition, negated). -/
def filtered_words_of (resume_text job_description : String) : List String :=
  (words_of job_description).filter fun w =>
    !(stopwords.contains w || decide (w.length < 3) ||
      (missing_of resume_text job_description).contains w ||
      (present_tech_of resume_text).contains w)

/-- One step of `freq[w] = freq.get(w, 0) + 1` on an insertion-ordered
association list (the model of a Python dict). -/
def bump (w : String) : List (String × Nat) → List (String × Nat)
  | [] => [(w, 1)]
  | (k, n) :: rest => if k = w then (k, n + 1) :: rest else (k, n) :: bump w rest

/-- The `freq` dict: keys in first-seen order with their counts. -/
def countFreq (ws : List String) : List (String × Nat) :=
  ws.foldl (fun acc w => bump w acc) []

/-- Insert a pair into a count-descending list, after every pair of count
at least as large (earlier elements of the original list come first on
ties, as with Python's stable `sorted`). -/
def insertDesc (p : String × Nat) : List (String × Nat) → List (String × Nat)
  | [] => [p]
  | q :: rest => if q.2 ≤ p.2 then p :: q :: rest else q :: insertDesc p rest

/-- Model of `sorted(freq.items(), key=lambda x: -x[1])`: a stable sort by
descending count. -/
def stableSortDesc : List (String × Nat) → List (String × Nat)
  | [] => []
  | p :: rest => insertDesc p (stableSortDesc rest)

/-- The `top` local: the ten highest-count pairs. -/
def top_of (resume_text job_description : String) : List (String × Nat) :=
  (stableSortDesc (countFreq (filtered_words_of resume_text job_description))).take 10

/-- The `keywords_to_add` local (before the `or` default). -/
def keywords_to_add_of (resume_text job_description : String) : List String :=
  ((top_of resume_text job_description).map Prod.fst).take 8

/-- One alternative of `\d+%|\$\d+|\d+x|\d+ (users|customers|transactions)`
anchored so that `i` is the last digit of the run (or the dollar sign);
a match of the pattern exists iff some `i` satisfies this. -/
def metricsAlt (cs : List Char) (i : Nat) : Bool :=
  ((charAt cs i).isDigit && occursAt cs ['%'] (i + 1)) ||
  (occursAt cs ['$'] i && (charAt cs (i + 1)).isDigit) ||
  ((charAt cs i).isDigit && occursAt cs ['x'] (i + 1)) ||
  ((charAt cs i).isDigit &&
    (occursAt cs " users".toList (i + 1) ||
     occursAt cs " customers".toList (i + 1) ||
     occursAt cs " transactions".toList (i + 1)))

/-- Signal `has_metrics`: the metrics pattern matches the original-case resume
text. -/
def has_metrics_of (resume_text : String) : Bool :=
  (List.range resume_text.toList.length).any fun i => metricsAlt resume_text.toList i

/-- Signal `has_projects`: one of six plain literals occurs in the lower-cased
resume. -/
def has_projects_of (resume_text : String) : Bool :=
  let cs := (pyLower resume_text).toList
  substrSearch cs "project" || substrSearch cs "github" ||
  substrSearch cs "portfolio" || substrSearch cs "built" ||
  substrSearch cs "created" || substrSearch cs "developed"

/-- Signal `has_experience`: `\d+ (years?|months?)` (a digit followed by a space
and `year`/`month`) or one of three plain literals, over the lower-cased
resume. -/
def has_experience_of (resume_text : String) : Bool :=
  let cs := (pyLower resume_text).toList
  ((List.range cs.length).any fun i =>
    (charAt cs i).isDigit &&
      (occursAt cs " year".toList (i + 1) || occursAt cs " month".toList (i + 1))) ||
  substrSearch cs "experience" || substrSearch cs "worked" ||
  substrSearch cs "employed"

/-- The `experience_improvements` local. -/
def experience_improvements_of (resume_text : String) : List String :=
  let l :=
    (if has_metrics_of resume_text then []
     else ["Add quantified outcomes (%, revenue, time saved) to experience bullets"]) ++
    (if has_experience_of resume_text then
       ["Highlight achievements from most recent roles that match job responsibilities"]
     else []) ++
    ["Include team size, reporting relationships, and scope of impact for major roles"]
  if l.length < 3 then
    l ++ ["Reorder bullets to prioritize items matching the job description"]
  else l

/-- The `project_improvements` local. -/
def project_improvements_of (resume_text : String) : List String :=
  (if has_projects_of resume_text then
     ["Specify technologies used for each project (stack details)",
      "Add measurable outcomes or impact (performance gains, user metrics)"]
   else
     ["Add a Projects section if applicable (GitHub, portfolio work)"]) ++
  ["Include project timelines and team size/collaboration model"]

/-- The `language_and_wording` local. -/
def language_and_wording_of (resume_text : String) : List String :=
  ["Replace passive phrases (\"responsible for\") with active verbs (led, implemented, delivered)",
   "Quantify or make specific vague claims (change \"experienced with\" to \"5+ years of\")"] ++
  (if has_metrics_of resume_text then []
   else ["Add metrics to action verbs (reduced X by Y%, increased Z)"])

/-- The suggestion record: a mapping with exactly the eight required keys,
each an ordered sequence of strings. -/
structure SuggestionRecord where
  missing_skills : List String
  skills_to_strengthen : List String
  keywords_to_add : List String
  experience_improvements : List String
  project_improvements : List String
  resume_structure_improvements : List String
  language_and_wording : List String
  ats_optimization : List String
deriving Repr, DecidableEq

/-- Python `xs or ys` on lists: `ys` when `xs` is empty (falsy). -/
def listOr (xs ys : List String) : List String :=
  if xs.isEmpty then ys else xs

/-- The `result` dict of `fallback_generator`, before serialization. -/
def fallback_record (resume_text job_description : String) : SuggestionRecord :=
  { missing_skills :=
      listOr ((missing_of resume_text job_description).take 8)
        ["Review job posting for domain-specific skills not on resume"]
  , skills_to_strengthen :=
      listOr (skills_to_strengthen_of resume_text)
        ["Add proficiency levels and use-cases for existing skills"]
  , keywords_to_add :=
      listOr (keywords_to_add_of resume_text job_description)
        ["scalability", "optimization", "architecture"]
  , experience_improvements := experience_improvements_of resume_text
  , project_improvements := project_improvements_of resume_text
  , resume_structure_improvements :=
      ["Add a headline summary (job title + 2–3 key strengths aligned to role)",
       "Create a dedicated Skills section grouped by category (Languages, Frameworks, Cloud, Tools)",
       "Ensure consistent formatting with clear section headers and proper spacing"]
  , language_and_wording := language_and_wording_of resume_text
  , ats_optimization :=
      ["Include keyword phrases from job posting in Skills and Experience sections naturally",
       "Use standard section headers (no symbols or special formatting) for ATS parsing",
       "Save as clean PDF or DOCX; avoid tables, images, and unusual fonts"] }

/-- A lower-case hexadecimal digit. -/
def hexDigit (n : Nat) : Char :=
  if n < 10 then Char.ofNat (48 + n) else Char.ofNat (87 + n)

/-- Four lower-case hexadecimal digits, as in Python's `\uXXXX` escapes. -/
def hex4 (n : Nat) : String :=
  String.mk [hexDigit (n / 4096 % 16), hexDigit (n / 256 % 16),
             hexDigit (n / 16 % 16), hexDigit (n % 16)]

/-- Python `json.dumps` default (`ensure_ascii=True`) escaping of one
character: short escapes for the usual controls, `\uXXXX` (with surrogate
pairs above the BMP) for other controls and all non-ASCII, the character
itself otherwise. -/
def jsonEscapeChar (c : Char) : String :=
  if c = '"' then "\\\""
  else if c = '\\' then "\\\\"
  else if c = '\n' then "\\n"
  else if c = '\r' then "\\r"
  else if c = '\t' then "\\t"
  else if c.toNat = 8 then "\\b"
  else if c.toNat = 12 then "\\f"
  else if c.toNat < 32 || 126 < c.toNat then
    if c.toNat < 65536 then "\\u" ++ hex4 c.toNat
    else
      "\\u" ++ hex4 (55296 + (c.toNat - 65536) / 1024) ++
      "\\u" ++ hex4 (56320 + (c.toNat - 65536) % 1024)
  else String.singleton c

/-- Python JSON string-body escaping of a whole string. -/
def jsonEscape (s : String) : String :=
  String.join (s.toList.map jsonEscapeChar)

/-- One JSON string literal. -/
def jsonDumpsStr (s : String) : String :=
  "\"" ++ jsonEscape s ++ "\""

/-- A JSON array of strings, compact separators. -/
def jsonDumpsStrList (l : List String) : String :=
  "[" ++ String.intercalate "," (l.map jsonDumpsStr) ++ "]"

/-- Model of `json.dumps(result, separators=(",", ":"))` for the record shape the
generator produces: keys in the source's dict-literal order. -/
def jsonDumpsRecord (r : SuggestionRecord) : String :=
  "\x7b" ++
  "\"missing_skills\":" ++ jsonDumpsStrList r.missing_skills ++ "," ++
  "\"skills_to_strengthen\":" ++ jsonDumpsStrList r.skills_to_strengthen ++ "," ++
  "\"keywords_to_add\":" ++ jsonDumpsStrList r.keywords_to_add ++ "," ++
  "\"experience_improvements\":" ++ jsonDumpsStrList r.experience_improvements ++ "," ++
  "\"project_improvements\":" ++ jsonDumpsStrList r.project_improvements ++ "," ++
  "\"resume_structure_improvements\":" ++ jsonDumpsStrList r.resume_structure_improvements ++ "," ++
  "\"language_and_wording\":" ++ jsonDumpsStrList r.language_and_wording ++ "," ++
  "\"ats_optimization\":" ++ jsonDumpsStrList r.ats_optimization ++
  "\x7d"

/-- Function `fallback_generator` of `src/cli_critic.py`: build the record and
serialize it to compact JSON. -/
def fallback_generator (resume_text job_description : String) : String :=
  jsonDumpsRecord (fallback_record resume_text job_description)

/-- The nested `_fallback` of `generate_improvement_json` in `src/main.py`:
a verbatim duplicate of `fallback_generator`, embedded here as the same
line-for-line let chain over the shared library models (`re` and `json`
are the same Python modules in both files). -/
def main_fallback (resume_text job_description : String) : String :=
  let resume_lower := pyLower resume_text
  let jd_lower := pyLower job_description
  let tkeys : List String :=
    ["python", "sql", "aws", "docker", "kubernetes", "react", "node", "tensorflow",
     "pandas", "spark", "java", "javascript", "cloud", "ci/cd", "etl", "linux", "git",
     "rest", "api", "mongodb", "postgresql", "mysql", "azure", "gcp", "jenkins", "kafka",
     "scala", "golang", "rust", "typescript", "vue", "angular", "django", "flask", "fastapi"]
  let missing := tkeys.filter fun kw => searchWB jd_lower kw && !(searchWB resume_lower kw)
  let present_tech := tkeys.filter fun kw => searchWB resume_lower kw
  let skills_to_strengthen :=
    match present_tech with
    | [] => []
    | k :: _ =>
      ["Quantify proficiency for " ++ k ++ " (years, projects, outcomes)",
       "Add specific use-cases for " ++ k ++ " (e.g., built X, optimized Y)"]
  let words := findallTokens jd_lower.toList
  let stops : List String :=
    ["the", "and", "a", "to", "of", "in", "for", "with", "on", "as", "is", "be",
     "by", "or", "are", "at", "from", "that", "this", "it", "you", "we", "your",
     "our", "not", "can", "have", "been", "has", "was", "were", "do", "does",
     "did", "would", "could", "should", "may", "might", "must"]
  let filtered := words.filter fun w =>
    !(stops.contains w || decide (w.length < 3) || missing.contains w || present_tech.contains w)
  let top := (stableSortDesc (countFreq filtered)).take 10
  let keywords_to_add := (top.map Prod.fst).take 8
  let has_metrics :=
    (List.range resume_text.toList.length).any fun i => metricsAlt resume_text.toList i
  let has_projects :=
    substrSearch resume_lower.toList "project" || substrSearch resume_lower.toList "github" ||
    substrSearch resume_lower.toList "portfolio" || substrSearch resume_lower.toList "built" ||
    substrSearch resume_lower.toList "created" || substrSearch resume_lower.toList "developed"
  let has_experience :=
    ((List.range resume_lower.toList.length).any fun i =>
      (charAt resume_lower.toList i).isDigit &&
        (occursAt resume_lower.toList " year".toList (i + 1) ||
         occursAt resume_lower.toList " month".toList (i + 1))) ||
    substrSearch resume_lower.toList "experience" || substrSearch resume_lower.toList "worked" ||
    substrSearch resume_lower.toList "employed"
  let experience_improvements :=
    (if has_metrics then []
     else ["Add quantified outcomes (%, revenue, time saved) to experience bullets"]) ++
    (if has_experience then
       ["Highlight achievements from most recent roles that match job responsibilities"]
     else []) ++
    ["Include team size, reporting relationships, and scope of impact for major roles"]
  let experience_improvements :=
    if experience_improvements.length < 3 then
      experience_improvements ++ ["Reorder bullets to prioritize items matching the job description"]
    else experience_improvements
  let project_improvements :=
    (if has_projects then
       ["Specify technologies used for each project (stack details)",
        "Add measurable outcomes or impact (performance gains, user metrics)"]
     else
       ["Add a Projects section if applicable (GitHub, portfolio work)"]) ++
    ["Include project timelines and team size/collaboration model"]
  let resume_structure_improvements : List String :=
    ["Add a headline summary (job title + 2–3 key strengths aligned to role)",
     "Create a dedicated Skills section grouped by category (Languages, Frameworks, Cloud, Tools)",
     "Ensure consistent formatting with clear section headers and proper spacing"]
  let language_and_wording :=
    ["Replace passive phrases (\"responsible for\") with active verbs (led, implemented, delivered)",
     "Quantify or make specific vague claims (change \"experienced with\" to \"5+ years of\")"] ++
    (if has_metrics then []
     else ["Add metrics to action verbs (reduced X by Y%, increased Z)"])
  let ats_optimization : List String :=
    ["Include keyword phrases from job posting in Skills and Experience sections naturally",
     "Use standard section headers (no symbols or special formatting) for ATS parsing",
     "Save as clean PDF or DOCX; avoid tables, images, and unusual fonts"]
  jsonDumpsRecord
    { missing_skills :=
        listOr (missing.take 8) ["Review job posting for domain-specific skills not on resume"]
    , skills_to_strengthen :=
        listOr skills_to_strengthen ["Add proficiency levels and use-cases for existing skills"]
    , keywords_to_add :=
        listOr keywords_to_add ["scalability", "optimization", "architecture"]
    , experience_improvements := experience_improvements
    , project_improvements := project_improvements
    , resume_structure_improvements := resume_structure_improvements
    , language_and_wording := language_and_wording
    , ats_optimization := ats_optimization }

/-- A parsed JSON value (the shape `json.loads` can return; number values are
modelled as integers, floating-point values being outside the embedding and
unreachable in every property proved here). -/
inductive JsonVal where
  | null : JsonVal
  | bool (b : Bool) : JsonVal
  | num (n : Int) : JsonVal
  | str (s : String) : JsonVal
  | arr (xs : List JsonVal) : JsonVal
  | obj (kvs : List (String × JsonVal)) : JsonVal

/-- The Python standard-library JSON facilities used by the success branch
of the model adapter, kept abstract (external library code): `json.loads`
(raising on invalid input), `str(...)` of a parsed value, and
`json.dumps(..., separators=(",", ":"))` of a parsed value. -/
structure PyJsonLib where
  loads : String → Except Unit JsonVal
  pyStr : JsonVal → String
  dumps : JsonVal → String

/-- The `required_keys` list of `generate_improvement_json`. -/
def required_keys : List String :=
  ["missing_skills", "skills_to_strengthen", "keywords_to_add",
   "experience_improvements", "project_improvements",
   "resume_structure_improvements", "language_and_wording", "ats_optimization"]

/-- First-match association lookup (Python dict read). -/
def lookupKey (kvs : List (String × JsonVal)) (k : String) : Option JsonVal :=
  match kvs with
  | [] => none
  | (k', v) :: rest => if k' = k then some v else lookupKey rest k

/-- Replace the value at a present key (Python dict write), keeping
insertion order. -/
def setKey (kvs : List (String × JsonVal)) (k : String) (v : JsonVal) :
    List (String × JsonVal) :=
  match kvs with
  | [] => []
  | (k', v') :: rest => if k' = k then (k', v) :: rest else (k', v') :: setKey rest k v

/-- Python truthiness of a parsed JSON value. -/
def jsonFalsy : JsonVal → Bool
  | .null => true
  | .bool b => !b
  | .num n => n == 0
  | .str s => s.isEmpty
  | .arr xs => xs.isEmpty
  | .obj kvs => kvs.isEmpty

/-- The required-keys fixup loop: a missing key becomes an empty array, a
non-array value becomes a one-element array of its string form. -/
def ensureKeys (pyStr : JsonVal → String) (kvs : List (String × JsonVal)) :
    List (String × JsonVal) :=
  required_keys.foldl
    (fun acc key =>
      match lookupKey acc key with
      | none => acc ++ [(key, .arr [])]
      | some (.arr _) => acc
      | some v => setKey acc key (.arr [.str (pyStr v)]))
    kvs

/-- The empty-array substitution loop: any falsy (empty) value at a
required key becomes the single placeholder string. -/
def fillEmpty (kvs : List (String × JsonVal)) : List (String × JsonVal) :=
  required_keys.foldl
    (fun acc key =>
      match lookupKey acc key with
      | none => acc ++ [(key, .arr [.str "Add relevant details here"])]
      | some v =>
        if jsonFalsy v then setKey acc key (.arr [.str "Add relevant details here"]) else acc)
    kvs

/-- Python `str.find(c)`: first index, `-1` when absent. -/
def pyFind (s : String) (c : Char) : Int :=
  match s.toList.findIdx? (· == c) with
  | some i => (i : Int)
  | none => -1

/-- Python `str.rfind(c)`: last index, `-1` when absent. -/
def pyRFind (s : String) (c : Char) : Int :=
  match s.toList.reverse.findIdx? (· == c) with
  | some i => ((s.toList.length - 1 - i : Nat) : Int)
  | none => -1

/-- Python `s[a:b]` for the non-negative indices this program produces. -/
def pySlice (s : String) (a b : Int) : String :=
  String.mk ((s.toList.drop a.toNat).take (b.toNat - a.toNat))

/-- The prompt template of `generate_improvement_json`, with the two input
texts truncated to their first 1000 characters. -/
def buildPrompt (resume_text job_description : String) : String :=
  "You are a resume critique engine. Analyze this resume against the job description.\n" ++
  "Return ONLY a valid JSON object. No text before or after. No explanations. No markdown.\n" ++
  "Start with \x7b and end with \x7d.\n\nRESUME:\n" ++ resume_text.take 1000 ++
  "\n\nJOB DESCRIPTION:\n" ++ job_description.take 1000 ++
  "\n\nReturn this exact format:\n\x7b\n  \"missing_skills\": [],\n" ++
  "  \"skills_to_strengthen\": [],\n  \"keywords_to_add\": [],\n" ++
  "  \"experience_improvements\": [],\n  \"project_improvements\": [],\n" ++
  "  \"resume_structure_improvements\": [],\n  \"language_and_wording\": [],\n" ++
  "  \"ats_optimization\": []\n\x7d"

/-- The `try` branch of `generate_improvement_json`: invoke the model
handle (`invoke` models the `generator(...)` call together with the
`generated_text` field access, raising modelled as `Except.error`), strip,
extract the first-`\x7b`-to-last-`\x7d` substring, parse, fix up the
required keys, and serialize; any raise anywhere yields `Except.error`.
A parse result that is not a JSON object makes the fixup's subscripting
raise in Python, hence `Except.error` here. -/
def tryBranch (invoke : String → Except Unit String) (lib : PyJsonLib)
    (prompt : String) : Except Unit String := do
  let raw ← invoke prompt
  let json_text := raw.trim
  let start_idx := pyFind json_text (Char.ofNat 123)
  let end_idx := pyRFind json_text (Char.ofNat 125) + 1
  let json_text :=
    if start_idx != -1 && end_idx > start_idx then pySlice json_text start_idx end_idx
    else json_text
  let parsed ← lib.loads json_text
  match parsed with
  | .obj kvs =>
    let fixed := ensureKeys lib.pyStr kvs
    let cleaned := fixed.filter fun kv => required_keys.contains kv.1
    pure (lib.dumps (.obj (fillEmpty cleaned)))
  | _ => .error ()

/-- Function `generate_improvement_json` of `src/main.py`: try the model-backed
path once; on any raise fall back to the nested rule-based `_fallback`
on the same inputs (no retry). -/
def generate_improvement_json (invoke : String → Except Unit String)
    (lib : PyJsonLib) (resume_text job_description : String) : String :=
  match tryBranch invoke lib (buildPrompt resume_text job_description) with
  | .ok s => s
  | .error _ => main_fallback resume_text job_description

/-- The mutually exclusive, required `--job-file` / `--job-text` argument
group of the CLI. -/
inductive JobArg where
  | file (path : String) : JobArg
  | text (t : String) : JobArg

/-- The parsed CLI arguments. -/
structure CliArgs where
  resume : String
  job : JobArg

/-- The external effects the CLI touches: `Path.exists`, `Path.read_text`,
and the document-text-extractor collaborator `extract_resume_text`. -/
structure CliEnv where
  path_exists : String → Bool
  read_text : String → String
  extract_resume : String → String

/-- Model of `json.dumps` of the error payload, with the default separators. -/
def errorJson (msg : String) : String :=
  "\x7b\"error\": \"" ++ jsonEscape msg ++ "\"\x7d"

/-- Function `main` of `src/cli_critic.py`: returns the full standard output of the
run (each `print` appends a newline) and the process exit status.  Every
path returns from `main` normally, so the status is `0` throughout. -/
def cli_main (env : CliEnv) (args : CliArgs) : String × Nat :=
  if !env.path_exists args.resume then
    (errorJson "Resume file not found" ++ "\n", 0)
  else
    let resume_text := env.extract_resume args.resume
    match args.job with
    | .file jf =>
      if !env.path_exists jf then
        (errorJson "Job description file not found" ++ "\n", 0)
      else
        (fallback_generator resume_text (env.read_text jf) ++ "\n", 0)
    | .text t => (fallback_generator resume_text t ++ "\n", 0)

/-- First-seen order of a list of tokens: the key order a Python dict
acquires when counting them (used to state the tie-break of claim C6). -/
def firstSeen (ws : List String) : List String :=
  ws.foldl (fun acc w => if acc.contains w then acc else acc ++ [w]) []

/-! ## Lemmas about the literal-matching primitives -/

theorem litHere_take (t : List Char) (n : Nat) : litHere (t.take n) t = true := by
  induction t generalizing n with
  | nil => cases n <;> rfl
  | cons c cs ih =>
    cases n with
    | zero => rfl
    | succ m => simp [litHere, ih]

theorem litHere_length_le {l t : List Char} (h : litHere l t = true) :
    l.length ≤ t.length := by
  induction l generalizing t with
  | nil => simp
  | cons p ps ih =>
    cases t with
    | nil => simp [litHere] at h
    | cons c cs =>
      simp only [litHere, Bool.and_eq_true] at h
      simpa using ih h.2

theorem litHere_drop {l t : List Char} (h : litHere l t = true) (k : Nat) :
    litHere (l.drop k) (t.drop k) = true := by
  induction l generalizing t k with
  | nil => simp [litHere_take, List.drop_nil, litHere]
  | cons p ps ih =>
    cases t with
    | nil => simp [litHere] at h
    | cons c cs =>
      simp only [litHere, Bool.and_eq_true] at h
      cases k with
      | zero => simp [litHere, h.1, h.2]
      | succ m => simpa using ih h.2 m

theorem litHere_cons_inv {p : Char} {ps t : List Char}
    (h : litHere (p :: ps) t = true) :
    ∃ cs, t = p :: cs ∧ litHere ps cs = true := by
  cases t with
  | nil => simp [litHere] at h
  | cons c cs =>
    simp only [litHere, Bool.and_eq_true, beq_iff_eq] at h
    exact ⟨cs, by rw [h.1], h.2⟩

/-! ## Lemmas about the token scan -/

theorem pickLen_some {s : List Char} {i l : Nat} :
    ∀ {n : Nat}, pickLen s i n = some l →
      1 ≤ l ∧ l ≤ n ∧ boundaryAt s (i + l) = true := by
  intro n
  induction n with
  | zero => intro h; simp [pickLen] at h
  | succ m ih =>
    intro h
    rw [pickLen] at h
    by_cases hb : boundaryAt s (i + m + 1) = true
    · rw [if_pos hb] at h
      obtain rfl : m + 1 = l := Option.some.inj h
      exact ⟨Nat.succ_le_succ (Nat.zero_le m), Nat.le_refl _, by
        simpa [Nat.add_assoc] using hb⟩
    · rw [if_neg hb] at h
      obtain ⟨h1, h2, h3⟩ := ih h
      exact ⟨h1, Nat.le_succ_of_le h2, h3⟩

theorem tokenClass_charAt_lt {s : List Char} {i : Nat}
    (h : tokenClass (charAt s i) = true) : i < s.length := by
  by_contra hc
  push_neg at hc
  have : s.drop i = [] := List.drop_eq_nil_of_le hc
  rw [charAt, this] at h
  simp [tokenClass] at h

theorem runLenAux_le (s : List Char) : ∀ (f i : Nat), runLenAux s i f ≤ s.length - i := by
  intro f
  induction f with
  | zero => intro i; simp [runLenAux]
  | succ m ih =>
    intro i
    rw [runLenAux]
    by_cases hc : tokenClass (charAt s i) = true
    · rw [if_pos hc]
      have hi : i < s.length := tokenClass_charAt_lt hc
      have := ih (i + 1)
      omega
    · rw [if_neg hc]
      exact Nat.zero_le _

theorem scanAux_spans {s : List Char} :
    ∀ (fuel i : Nat) (p : Nat × Nat), p ∈ scanAux s i fuel →
      boundaryAt s p.1 = true ∧ boundaryAt s (p.1 + p.2) = true ∧
      1 ≤ p.2 ∧ p.1 + p.2 ≤ s.length := by
  intro fuel
  induction fuel with
  | zero => intro i p h; simp [scanAux] at h
  | succ m ih =>
    intro i p h
    rw [scanAux] at h
    by_cases hend : s.length ≤ i
    · rw [if_pos hend] at h; simp at h
    · rw [if_neg hend] at h
      by_cases hb : (boundaryAt s i && tokenClass (charAt s i)) = true
      · rw [if_pos hb] at h
        rcases hp : pickLen s i (runLen s i) with _ | l
        · rw [hp] at h
          exact ih (i + 1) p h
        · rw [hp] at h
          rcases List.mem_cons.mp h with rfl | hmem
          · obtain ⟨h1, h2, h3⟩ := pickLen_some hp
            have hrun : runLen s i ≤ s.length - i := runLenAux_le s _ i
            refine ⟨(Bool.and_eq_true _ _ |>.mp hb).1, h3, h1, ?_⟩
            omega
          · exact ih (i + l) p hmem
      · rw [if_neg hb] at h
        exact ih (i + 1) p h


theorem mem_findallTokens_searchWB {cs : List Char} {w : String}
    (h : w ∈ findallTokens cs) : searchWB (String.mk cs) w = true := by
  rw [findallTokens] at h
  obtain ⟨p, hp, rfl⟩ := List.mem_map.mp h
  obtain ⟨hb1, hb2, hl1, hl2⟩ := scanAux_spans _ _ p hp
  have htl : (String.mk ((cs.drop p.1).take p.2)).toList = (cs.drop p.1).take p.2 := rfl
  have hlen : ((cs.drop p.1).take p.2).length = p.2 := by
    rw [List.length_take, List.length_drop]
    omega
  have hcs : (String.mk cs).toList = cs := rfl
  rw [searchWB]
  simp only [htl, hcs, List.any_eq_true, List.mem_range]
  refine ⟨p.1, by omega, ?_⟩
  rw [Bool.and_eq_true, Bool.and_eq_true]
  refine ⟨⟨hb1, ?_⟩, ?_⟩
  · rw [occursAt]
    exact litHere_take _ _
  · rw [hlen]
    exact hb2

/-! ## Lemmas about frequency counting and the stable sort -/

theorem mem_bump {w : String} {l : List (String × Nat)} {p : String × Nat}
    (h : p ∈ bump w l) : p.1 = w ∨ p ∈ l := by
  induction l with
  | nil =>
    simp only [bump, List.mem_singleton] at h
    left; rw [h]
  | cons q rest ih =>
    obtain ⟨k, n⟩ := q
    rw [bump] at h
    by_cases hk : k = w
    · rw [if_pos hk] at h
      rcases List.mem_cons.mp h with rfl | hmem
      · left; exact hk
      · right; exact List.mem_cons_of_mem _ hmem
    · rw [if_neg hk] at h
      rcases List.mem_cons.mp h with rfl | hmem
      · right; exact List.mem_cons_self _ _
      · rcases ih hmem with h1 | h1
        · left; exact h1
        · right; exact List.mem_cons_of_mem _ h1

theorem mem_countFreq_aux (p : String × Nat) :
    ∀ (ws : List String) (acc : List (String × Nat)),
      p ∈ ws.foldl (fun acc w => bump w acc) acc → p ∈ acc ∨ p.1 ∈ ws := by
  intro ws
  induction ws with
  | nil => intro acc hacc; exact Or.inl hacc
  | cons w rest ih =>
    intro acc hacc
    rw [List.foldl_cons] at hacc
    rcases ih (bump w acc) hacc with h1 | h1
    · rcases mem_bump h1 with h2 | h2
      · right; rw [h2]; exact List.mem_cons_self _ _
      · left; exact h2
    · right; exact List.mem_cons_of_mem _ h1

theorem mem_countFreq {ws : List String} {p : String × Nat}
    (h : p ∈ countFreq ws) : p.1 ∈ ws := by
  rw [countFreq] at h
  rcases mem_countFreq_aux p ws [] h with h1 | h1
  · simp at h1
  · exact h1

theorem insertDesc_perm (p : String × Nat) (l : List (String × Nat)) :
    List.Perm (insertDesc p l) (p :: l) := by
  induction l with
  | nil => rfl
  | cons q rest ih =>
    rw [insertDesc]
    by_cases hq : q.2 ≤ p.2
    · rw [if_pos hq]
    · rw [if_neg hq]
      exact (ih.cons q).trans (List.Perm.swap p q rest)

theorem stableSortDesc_perm (l : List (String × Nat)) :
    List.Perm (stableSortDesc l) l := by
  induction l with
  | nil => rfl
  | cons p rest ih =>
    exact (insertDesc_perm p (stableSortDesc rest)).trans (ih.cons p)

theorem mem_insertDesc {p q : String × Nat} {l : List (String × Nat)}
    (h : q ∈ insertDesc p l) : q = p ∨ q ∈ l :=
  List.mem_cons.mp ((insertDesc_perm p l).mem_iff.mp h)

theorem pairwise_insertDesc {p : String × Nat} {l : List (String × Nat)}
    (h : List.Pairwise (fun a b => b.2 ≤ a.2) l) :
    List.Pairwise (fun a b => b.2 ≤ a.2) (insertDesc p l) := by
  induction l with
  | nil => simp [insertDesc]
  | cons q rest ih =>
    rw [insertDesc]
    by_cases hq : q.2 ≤ p.2
    · rw [if_pos hq]
      refine List.Pairwise.cons ?_ h
      intro b hb
      rcases List.mem_cons.mp hb with rfl | hmem
      · exact hq
      · exact Nat.le_trans (List.rel_of_pairwise_cons h hmem) hq
    · rw [if_neg hq]
      obtain ⟨hq1, hq2⟩ := List.pairwise_cons.mp h
      refine List.Pairwise.cons ?_ (ih hq2)
      intro b hb
      rcases mem_insertDesc hb with rfl | hmem
      · omega
      · exact hq1 b hmem

theorem pairwise_stableSortDesc (l : List (String × Nat)) :
    List.Pairwise (fun a b => b.2 ≤ a.2) (stableSortDesc l) := by
  induction l with
  | nil => simp [stableSortDesc]
  | cons p rest ih =>
    exact pairwise_insertDesc ih

theorem filter_insertDesc (c : Nat) (p : String × Nat) (l : List (String × Nat)) :
    (insertDesc p l).filter (fun q => q.2 == c)
      = (p :: l).filter (fun q => q.2 == c) := by
  induction l with
  | nil => rfl
  | cons q rest ih =>
    rw [insertDesc]
    by_cases hq : q.2 ≤ p.2
    · rw [if_pos hq]
    · rw [if_neg hq]
      by_cases hpc : p.2 = c
      · have hqc : (q.2 == c) = false := by
          simp only [beq_eq_false_iff_ne, ne_eq]
          omega
        have hpc' : (p.2 == c) = true := by simpa using hpc
        simp only [List.filter_cons, hqc, hpc', ih]
        simp [hqc, hpc']
      · have hpc' : (p.2 == c) = false := by simpa using hpc
        simp only [List.filter_cons, hpc', ih]
        simp [hpc']

theorem filter_stableSortDesc (c : Nat) (l : List (String × Nat)) :
    (stableSortDesc l).filter (fun q => q.2 == c) = l.filter (fun q => q.2 == c) := by
  induction l with
  | nil => rfl
  | cons p rest ih =>
    rw [stableSortDesc, filter_insertDesc, List.filter_cons, List.filter_cons, ih]

theorem map_fst_bump (w : String) (l : List (String × Nat)) :
    (bump w l).map Prod.fst
      = if (l.map Prod.fst).contains w then l.map Prod.fst else l.map Prod.fst ++ [w] := by
  induction l with
  | nil => simp [bump]
  | cons q rest ih =>
    obtain ⟨k, n⟩ := q
    rw [bump]
    by_cases hk : k = w
    · subst hk
      simp [List.contains_cons]
    · rw [if_neg hk]
      have hk' : (w == k) = false := by simpa using fun h => hk h.symm
      have hkc : (k :: rest.map Prod.fst).contains w = (rest.map Prod.fst).contains w := by
        rw [List.contains_cons, hk', Bool.false_or]
      rw [List.map_cons, List.map_cons, ih, hkc]
      by_cases hc : (rest.map Prod.fst).contains w = true
      · rw [hc]
        simp
      · have hc' : (rest.map Prod.fst).contains w = false := by simpa using hc
        rw [hc']
        simp

theorem map_fst_countFreq_aux :
    ∀ (ws : List String) (acc : List (String × Nat)),
      (ws.foldl (fun acc w => bump w acc) acc).map Prod.fst
        = ws.foldl (fun acc w => if acc.contains w then acc else acc ++ [w])
            (acc.map Prod.fst) := by
  intro ws
  induction ws with
  | nil => intro acc; rfl
  | cons w rest ih =>
    intro acc
    rw [List.foldl_cons, List.foldl_cons, ih (bump w acc), map_fst_bump]

theorem map_fst_countFreq (ws : List String) :
    (countFreq ws).map Prod.fst = firstSeen ws := by
  rw [countFreq, firstSeen]
  simpa using map_fst_countFreq_aux ws []

/-! ## Helper lemmas for the claims -/

theorem listOr_pos {xs ys : List String} (hy : 0 < ys.length) :
    0 < (listOr xs ys).length := by
  rw [listOr]
  by_cases hx : xs.isEmpty = true
  · rw [if_pos hx]; exact hy
  · rw [if_neg hx]
    cases xs with
    | nil => simp at hx
    | cons a l => simp

theorem listOr_of_ne_nil {xs ys : List String} (hx : xs ≠ []) : listOr xs ys = xs := by
  rw [listOr, if_neg]
  simpa [List.isEmpty_iff] using hx

theorem mem_missing_searchWB {r j w : String} (h : w ∈ missing_of r j) :
    searchWB (pyLower r) w = false := by
  rw [missing_of, List.mem_filter] at h
  obtain ⟨-, hcond⟩ := h
  rw [Bool.and_eq_true, Bool.not_eq_true'] at hcond
  exact hcond.2

theorem mem_keywords_to_add_props {r j w : String}
    (hw : w ∈ keywords_to_add_of r j) :
    searchWB (pyLower j) w = true ∧
    (missing_of r j).contains w = false ∧
    (present_tech_of r).contains w = false := by
  rw [keywords_to_add_of] at hw
  have h1 : w ∈ (top_of r j).map Prod.fst := List.take_subset _ _ hw
  obtain ⟨p, hp, rfl⟩ := List.mem_map.mp h1
  rw [top_of] at hp
  have h2 : p ∈ stableSortDesc (countFreq (filtered_words_of r j)) :=
    List.take_subset _ _ hp
  have h3 : p ∈ countFreq (filtered_words_of r j) :=
    (stableSortDesc_perm _).subset h2
  have h4 : p.1 ∈ filtered_words_of r j := mem_countFreq h3
  rw [filtered_words_of, List.mem_filter] at h4
  obtain ⟨hmem, hcond⟩ := h4
  rw [Bool.not_eq_true', Bool.or_eq_false_iff, Bool.or_eq_false_iff,
      Bool.or_eq_false_iff] at hcond
  have hsearch : searchWB (pyLower j) p.1 = true := by
    rw [words_of] at hmem
    have hmk : String.mk (pyLower j).toList = pyLower j := rfl
    have := mem_findallTokens_searchWB hmem
    rwa [hmk] at this
  exact ⟨hsearch, hcond.1.2, hcond.2⟩

theorem keywords_to_add_not_tech {r j w : String}
    (hw : w ∈ keywords_to_add_of r j) : w ∉ tech_keywords := by
  intro htech
  obtain ⟨hsearch, hmiss, hpres⟩ := mem_keywords_to_add_props hw
  by_cases hres : searchWB (pyLower r) w = true
  · have hmem : w ∈ present_tech_of r := by
      rw [present_tech_of, List.mem_filter]
      exact ⟨htech, hres⟩
    have hc : (present_tech_of r).contains w = true := List.elem_eq_true_of_mem hmem
    rw [hpres] at hc
    exact Bool.false_ne_true hc
  · have hres' : searchWB (pyLower r) w = false := by simpa using hres
    have hmem : w ∈ missing_of r j := by
      rw [missing_of, List.mem_filter]
      exact ⟨htech, by rw [hsearch, hres']; rfl⟩
    have hc : (missing_of r j).contains w = true := List.elem_eq_true_of_mem hmem
    rw [hmiss] at hc
    exact Bool.false_ne_true hc

/-! ## The claims -/

/-- C1: for every pair of input strings, the rule-based generator returns a
record with exactly the eight required keys (the fields of
`SuggestionRecord`), and the value at each key is a non-empty sequence of
strings. -/
theorem claim1_record_always_fully_populated (r j : String) :
    0 < (fallback_record r j).missing_skills.length ∧
    0 < (fallback_record r j).skills_to_strengthen.length ∧
    0 < (fallback_record r j).keywords_to_add.length ∧
    0 < (fallback_record r j).experience_improvements.length ∧
    0 < (fallback_record r j).project_improvements.length ∧
    0 < (fallback_record r j).resume_structure_improvements.length ∧
    0 < (fallback_record r j).language_and_wording.length ∧
    0 < (fallback_record r j).ats_optimization.length := by
  simp only [fallback_record]
  refine ⟨listOr_pos (by decide), listOr_pos (by decide), listOr_pos (by decide),
    ?_, ?_, by simp [fallback_record], ?_, by simp [fallback_record]⟩
  · cases hm : has_metrics_of r <;> cases he : has_experience_of r <;>
      simp [fallback_record, experience_improvements_of, hm, he]
  · cases hp : has_projects_of r <;> simp [fallback_record, project_improvements_of, hp]
  · cases hm : has_metrics_of r <;> simp [fallback_record, language_and_wording_of, hm]

/-- C3: `missing_skills` never contains a taxonomy keyword that
word-boundary-matches the lower-cased resume text, has at most 8 entries,
and is the single advisory string when no keyword qualifies. -/
theorem claim3_missing_skills_sound (r j : String) :
    (∀ w ∈ (fallback_record r j).missing_skills,
        w ∈ tech_keywords → searchWB (pyLower r) w = false) ∧
    (fallback_record r j).missing_skills.length ≤ 8 ∧
    (missing_of r j = [] →
      (fallback_record r j).missing_skills
        = ["Review job posting for domain-specific skills not on resume"]) := by
  have hrec : (fallback_record r j).missing_skills
      = listOr ((missing_of r j).take 8)
          ["Review job posting for domain-specific skills not on resume"] := rfl
  rw [hrec]
  by_cases hm : missing_of r j = []
  · rw [hm]
    refine ⟨?_, by decide, fun _ => rfl⟩
    intro w hw htech
    simp only [listOr, List.take_nil, List.isEmpty_nil, if_true] at hw
    rcases List.mem_singleton.mp hw with rfl
    exact absurd htech (by decide)
  · have htk : (missing_of r j).take 8 ≠ [] := by
      cases hmc : missing_of r j with
      | nil => exact absurd hmc hm
      | cons a l => simp
    rw [listOr_of_ne_nil htk]
    refine ⟨?_, List.length_take_le _ _, fun h => absurd h hm⟩
    intro w hw _
    exact mem_missing_searchWB (List.take_subset _ _ hw)

/-- C3 witness: at a concrete resume/job pair, `python` sits in
`missing_skills` and indeed has no word-boundary match in the (empty)
resume; at empty inputs the advisory fallback appears. -/
theorem claim3_missing_skills_sound_witness :
    searchWB (pyLower "") "python" = false ∧
    (fallback_record "" "").missing_skills
      = ["Review job posting for domain-specific skills not on resume"] :=
  ⟨(claim3_missing_skills_sound "" "we need python").1 "python" (by decide) (by decide),
   (claim3_missing_skills_sound "" "").2.2 (by decide)⟩

/-- C4: `keywords_to_add` never contains a taxonomy keyword and never
exceeds 8 entries. -/
theorem claim4_keywords_exclude_taxonomy (r j : String) :
    (∀ w ∈ (fallback_record r j).keywords_to_add, w ∉ tech_keywords) ∧
    (fallback_record r j).keywords_to_add.length ≤ 8 := by
  have hrec : (fallback_record r j).keywords_to_add
      = listOr (keywords_to_add_of r j)
          ["scalability", "optimization", "architecture"] := rfl
  rw [hrec]
  by_cases hk : keywords_to_add_of r j = []
  · rw [hk]
    refine ⟨?_, by decide⟩
    intro w hw
    simp only [listOr, List.isEmpty_nil, if_true] at hw
    fin_cases hw <;> decide
  · rw [listOr_of_ne_nil hk]
    refine ⟨fun w hw => keywords_to_add_not_tech hw, ?_⟩
    exact List.length_take_le _ _

/-- C4 witness: at empty inputs the default keyword `scalability` is in the
field and the theorem yields that it is not a taxonomy keyword. -/
theorem claim4_keywords_exclude_taxonomy_witness :
    "scalability" ∈ (fallback_record "" "").keywords_to_add ∧
    "scalability" ∉ tech_keywords :=
  ⟨by decide, (claim4_keywords_exclude_taxonomy "" "").1 "scalability" (by decide)⟩

/-- C5: the generator is deterministic — two calls with identical inputs
produce byte-identical compact-JSON output (the embedding is a pure
function of the two input strings). -/
theorem claim5_deterministic (r j : String) :
    fallback_generator r j = fallback_generator r j := rfl

/-- C6: the surviving tokens, sorted, form a permutation of the frequency
pairs, ordered by descending count, with count-ties kept in the frequency
dict's order; the frequency dict's key order is the first-seen order of the
surviving tokens; and `keywords_to_add` is exactly the first 8 of the top
10 of that ordering. -/
theorem claim6_keyword_ordering (r j : String) :
    List.Perm (stableSortDesc (countFreq (filtered_words_of r j)))
      (countFreq (filtered_words_of r j)) ∧
    List.Pairwise (fun a b => b.2 ≤ a.2)
      (stableSortDesc (countFreq (filtered_words_of r j))) ∧
    (∀ c : Nat,
      (stableSortDesc (countFreq (filtered_words_of r j))).filter (fun p => p.2 == c)
        = (countFreq (filtered_words_of r j)).filter (fun p => p.2 == c)) ∧
    (countFreq (filtered_words_of r j)).map Prod.fst
      = firstSeen (filtered_words_of r j) ∧
    keywords_to_add_of r j
      = (((stableSortDesc (countFreq (filtered_words_of r j))).take 10).map
          Prod.fst).take 8 :=
  ⟨stableSortDesc_perm _, pairwise_stableSortDesc _,
   fun c => filter_stableSortDesc c _, map_fst_countFreq _, rfl⟩

/-- C8: on empty resume and job description, `missing_skills` is the single
advisory string and `keywords_to_add` is the three fixed defaults. -/
theorem claim8_empty_inputs :
    (fallback_record "" "").missing_skills
      = ["Review job posting for domain-specific skills not on resume"] ∧
    (fallback_record "" "").keywords_to_add
      = ["scalability", "optimization", "architecture"] :=
  ⟨rfl, rfl⟩

/-- C10: noninterference of the job description — with the resume fixed,
the six fields other than `missing_skills` and `keywords_to_add` do not
depend on the job description. -/
theorem claim10_jd_noninterference (r j1 j2 : String) :
    (fallback_record r j1).skills_to_strengthen
      = (fallback_record r j2).skills_to_strengthen ∧
    (fallback_record r j1).experience_improvements
      = (fallback_record r j2).experience_improvements ∧
    (fallback_record r j1).project_improvements
      = (fallback_record r j2).project_improvements ∧
    (fallback_record r j1).resume_structure_improvements
      = (fallback_record r j2).resume_structure_improvements ∧
    (fallback_record r j1).language_and_wording
      = (fallback_record r j2).language_and_wording ∧
    (fallback_record r j1).ats_optimization
      = (fallback_record r j2).ats_optimization :=
  ⟨rfl, rfl, rfl, rfl, rfl, rfl⟩

/-- C2: the two verbatim copies of the rule-based generator are
extensionally equal, and for any model handle whose invocation raises,
the adapter returns exactly the rule-based generator's output on the same
inputs (the single `try` means no retry). -/
theorem claim2_fallback_equivalence :
    (∀ r j, main_fallback r j = fallback_generator r j) ∧
    (∀ (invoke : String → Except Unit String) (lib : PyJsonLib) (r j : String),
      (∀ p, invoke p = Except.error ()) →
      generate_improvement_json invoke lib r j = fallback_generator r j) := by
  refine ⟨fun r j => rfl, ?_⟩
  intro invoke lib r j h
  have ht : tryBranch invoke lib (buildPrompt r j) = Except.error () := by
    rw [tryBranch, h (buildPrompt r j)]
    rfl
  rw [generate_improvement_json, ht]
  rfl

/-- C2 witness: a handle that always raises makes the adapter produce the
rule-based output at a concrete input pair. -/
theorem claim2_fallback_equivalence_witness :
    generate_improvement_json (fun _ => Except.error ())
      ⟨fun _ => Except.error (), fun _ => "", fun _ => ""⟩ "resume text" "job text"
      = fallback_generator "resume text" "job text" :=
  claim2_fallback_equivalence.2 (fun _ => Except.error ())
    ⟨fun _ => Except.error (), fun _ => "", fun _ => ""⟩ "resume text" "job text"
    (fun _ => rfl)

/-- C7: a resume containing `reduced costs by 30%` makes the metrics signal
true, so `language_and_wording` omits the add-metrics line and
`experience_improvements` omits the quantify-outcomes line. -/
theorem claim7_metrics_suppression (r j : String)
    (h : substrSearch r.toList "reduced costs by 30%" = true) :
    has_metrics_of r = true ∧
    "Add metrics to action verbs (reduced X by Y%, increased Z)"
      ∉ (fallback_record r j).language_and_wording ∧
    "Add quantified outcomes (%, revenue, time saved) to experience bullets"
      ∉ (fallback_record r j).experience_improvements := by
  have hmet : has_metrics_of r = true := by
    rw [substrSearch] at h
    simp only [List.any_eq_true, List.mem_range] at h
    obtain ⟨i, hi, hocc⟩ := h
    rw [occursAt] at hocc
    have hle : 20 ≤ (r.toList.drop i).length := litHere_length_le hocc
    have hdrop18 :
        litHere ("reduced costs by 30%".toList.drop 18) ((r.toList.drop i).drop 18) = true :=
      litHere_drop hocc 18
    have hd : "reduced costs by 30%".toList.drop 18 = ['0', '%'] := rfl
    rw [hd, List.drop_drop] at hdrop18
    obtain ⟨cs1, hcs1, htail⟩ := litHere_cons_inv hdrop18
    rw [has_metrics_of]
    simp only [List.any_eq_true, List.mem_range]
    refine ⟨i + 18, ?_, ?_⟩
    · have hld : (r.toList.drop i).length = r.toList.length - i := List.length_drop _ _
      omega
    · have hch : charAt r.toList (i + 18) = '0' := by
        rw [charAt, hcs1]
        rfl
      have hocc2 : occursAt r.toList ['%'] (i + 18 + 1) = true := by
        rw [occursAt]
        have h1 : List.drop 1 (r.toList.drop (i + 18)) = r.toList.drop (i + 18 + 1) := by
          rw [List.drop_drop]
        rw [← h1, hcs1]
        exact htail
      have hdig : ('0' : Char).isDigit = true := rfl
      rw [metricsAlt, hch, hocc2, hdig]
      simp
  refine ⟨hmet, ?_, ?_⟩
  · have hl : (fallback_record r j).language_and_wording
        = ["Replace passive phrases (\"responsible for\") with active verbs (led, implemented, delivered)",
           "Quantify or make specific vague claims (change \"experienced with\" to \"5+ years of\")"] := by
      simp [fallback_record, language_and_wording_of, hmet]
    rw [hl]
    decide
  · cases hexp : has_experience_of r with
    | false =>
      have he : (fallback_record r j).experience_improvements
          = ["Include team size, reporting relationships, and scope of impact for major roles",
             "Reorder bullets to prioritize items matching the job description"] := by
        simp [fallback_record, experience_improvements_of, hmet, hexp]
      rw [he]
      decide
    | true =>
      have he : (fallback_record r j).experience_improvements
          = ["Highlight achievements from most recent roles that match job responsibilities",
             "Include team size, reporting relationships, and scope of impact for major roles",
             "Reorder bullets to prioritize items matching the job description"] := by
        simp [fallback_record, experience_improvements_of, hmet, hexp]
      rw [he]
      decide

/-- C7 witness: the concrete resume `reduced costs by 30%` contains the
substring, the metrics signal is true and the add-metrics line is absent. -/
theorem claim7_metrics_suppression_witness :
    substrSearch ("reduced costs by 30%").toList "reduced costs by 30%" = true ∧
    has_metrics_of "reduced costs by 30%" = true ∧
    "Add metrics to action verbs (reduced X by Y%, increased Z)"
      ∉ (fallback_record "reduced costs by 30%" "").language_and_wording :=
  ⟨by decide,
   (claim7_metrics_suppression "reduced costs by 30%" "" (by decide)).1,
   (claim7_metrics_suppression "reduced costs by 30%" "" (by decide)).2.1⟩

/-- C9: when the `--resume` path does not exist, the CLI writes exactly the
JSON error line to standard output (independently of the extractor and of
every other effect) and exits with status 0. -/
theorem claim9_missing_resume (env : CliEnv) (args : CliArgs)
    (h : env.path_exists args.resume = false) :
    cli_main env args
      = ("\x7b\"error\": \"Resume file not found\"\x7d\n", 0) := by
  rw [cli_main, h]
  rfl

/-- C9 witness: a concrete environment in which the resume path is missing
produces exactly the error line and exit status 0. -/
theorem claim9_missing_resume_witness :
    cli_main ⟨fun _ => false, fun _ => "", fun _ => ""⟩
        ⟨"resume.pdf", JobArg.text "jd"⟩
      = ("\x7b\"error\": \"Resume file not found\"\x7d\n", 0) :=
  claim9_missing_resume _ _ rfl
